import Mathlib

/-!
Verification of `src/dsp.rs` (Hushr): the `AudioProcessor` trait and its sole
implementor `GainProcessor`.

Samples (`f32` in the source) are modelled by `F32`: an IEEE-754-style value
type that distinguishes NaN, signed infinities, and signed finite magnitudes
(rational magnitude, so signed zeros `+0.0` / `-0.0` are distinct values).
Negation and multiplication follow the IEEE sign rules; numeric comparison
`F32.beq` models Rust's `==` on `f32` (NaN unequal to everything, `-0.0`
numerically equal to `0.0`).  Multiplication of finite magnitudes is exact
here; every identity proved below (`x * 1.0 = x`, `x * -1.0 = -x`, sign of
zero) is exact in IEEE binary32 as well, so the model is faithful on the
multiplier values the claims use.

The imperative `process` loop is embedded as explicit state passing over
`ProcState` (processor fields, input buffer, output buffer), mirroring the
Rust loop `for (i, &sample) in input.iter().enumerate() { if i < output.len()
{ output[i] = sample * multiplier; } }`.
-/

/-- Model of Rust `f32` values: NaN, signed infinity, or a signed finite
magnitude.  `sign = true` means negative; a zero magnitude with `sign = true`
is `-0.0`. -/
inductive F32 where
  | nan : F32
  | inf : Bool → F32
  | fin : Bool → ℚ → F32
deriving DecidableEq, Repr

namespace F32

/-- `1.0f32`. -/
def one : F32 := .fin false 1

/-- `0.0f32`. -/
def zero : F32 := .fin false 0

/-- `-0.0f32`. -/
def negZero : F32 := .fin true 0

/-- IEEE negation: flips the sign bit; NaN stays NaN. -/
def neg : F32 → F32
  | .nan => .nan
  | .inf s => .inf (!s)
  | .fin s m => .fin (!s) m

/-- IEEE multiplication on the model: NaN propagates, `inf * 0` is NaN,
signs xor, finite magnitudes multiply exactly. -/
def mul : F32 → F32 → F32
  | .nan, _ => .nan
  | _, .nan => .nan
  | .inf s, .inf t => .inf (xor s t)
  | .inf s, .fin t m => if m = 0 then .nan else .inf (xor s t)
  | .fin s m, .inf t => if m = 0 then .nan else .inf (xor s t)
  | .fin s m, .fin t n => .fin (xor s t) (m * n)

/-- Rust `==` on `f32` (numeric equality): NaN compares unequal to
everything, `+0.0 == -0.0`, otherwise sign and magnitude must agree. -/
def beq : F32 → F32 → Bool
  | .nan, _ => false
  | _, .nan => false
  | .inf s, .inf t => s == t
  | .inf _, .fin _ _ => false
  | .fin _ _, .inf _ => false
  | .fin s m, .fin t n => m == n && (s == t || m == 0)

end F32

/-- `pub struct GainProcessor { pub gain: f32, pub invert: bool }`. -/
structure GainProcessor where
  gain : F32
  invert : Bool
deriving DecidableEq, Repr

namespace GainProcessor

/-- `GainProcessor::new(gain, invert)`. -/
def new (gain : F32) (invert : Bool) : GainProcessor := ⟨gain, invert⟩

end GainProcessor

/-- The mutable state visible to `GainProcessor::process`: the processor
(taken by `&mut self`), the input slice, and the output slice. -/
structure ProcState where
  proc : GainProcessor
  input : List F32
  output : List F32
deriving DecidableEq, Repr

/-- The body of the Rust loop, threading the state explicitly: at index `i`,
if `i` is a valid input index, write `input[i] * multiplier` into `output[i]`
when `i < output.len()`, then continue with `i + 1`; otherwise stop. -/
def processLoop (multiplier : F32) (s : ProcState) (i : Nat) : ProcState :=
  if h : i < s.input.length then
    processLoop multiplier
      (if i < s.output.length then
        { s with output := s.output.set i (F32.mul (s.input.get ⟨i, h⟩) multiplier) }
       else s)
      (i + 1)
  else s
termination_by s.input.length - i
decreasing_by
  split <;> simp <;> omega

/-- `GainProcessor::process(&mut self, input, output)`: compute
`multiplier = if self.invert { -self.gain } else { self.gain }` once, then
run the loop from index `0`. -/
def GainProcessor.process (p : GainProcessor) (input output : List F32) : ProcState :=
  let multiplier := if p.invert then F32.neg p.gain else p.gain
  processLoop multiplier ⟨p, input, output⟩ 0

/-! ## Invariants of the processing loop -/

/-- The loop leaves the processor component of the state unchanged. -/
theorem processLoop_proc (m : F32) (s : ProcState) (i : Nat) :
    (processLoop m s i).proc = s.proc := by
  generalize hn : s.input.length - i = n
  induction n generalizing s i with
  | zero =>
    rw [processLoop, dif_neg (by omega)]
  | succ n ih =>
    rw [processLoop]
    split
    · next h =>
      split <;> exact ih _ (i + 1) (by show s.input.length - (i + 1) = n; omega)
    · rfl

/-- The loop never modifies the input buffer. -/
theorem processLoop_input (m : F32) (s : ProcState) (i : Nat) :
    (processLoop m s i).input = s.input := by
  generalize hn : s.input.length - i = n
  induction n generalizing s i with
  | zero =>
    rw [processLoop, dif_neg (by omega)]
  | succ n ih =>
    rw [processLoop]
    split
    · next h =>
      split <;> exact ih _ (i + 1) (by show s.input.length - (i + 1) = n; omega)
    · rfl

/-- The loop preserves the length of the output buffer. -/
theorem processLoop_length (m : F32) (s : ProcState) (i : Nat) :
    (processLoop m s i).output.length = s.output.length := by
  generalize hn : s.input.length - i = n
  induction n generalizing s i with
  | zero =>
    rw [processLoop, dif_neg (by omega)]
  | succ n ih =>
    rw [processLoop]
    split
    · next h =>
      split
      · rw [ih _ (i + 1) (by show s.input.length - (i + 1) = n; omega)]
        exact List.length_set s.output ..
      · exact ih _ (i + 1) (by show s.input.length - (i + 1) = n; omega)
    · rfl

/-- Output positions below the loop counter, past the input length, or past
the output length are never written by the loop. -/
theorem processLoop_untouched (m : F32) (s : ProcState) (i j : Nat)
    (hj : j < i ∨ s.input.length ≤ j ∨ s.output.length ≤ j) :
    (processLoop m s i).output[j]? = s.output[j]? := by
  generalize hn : s.input.length - i = n
  induction n generalizing s i with
  | zero =>
    rw [processLoop, dif_neg (by omega)]
  | succ n ih =>
    rw [processLoop]
    split
    · next h =>
      split
      · next hout =>
        have hne : i ≠ j := by rcases hj with h1 | h1 | h1 <;> omega
        rw [ih _ (i + 1)]
        · exact List.getElem?_set_ne hne
        · show j < i + 1 ∨ s.input.length ≤ j ∨
            (s.output.set i (F32.mul (s.input.get ⟨i, h⟩) m)).length ≤ j
          rw [List.length_set]
          omega
        · show s.input.length - (i + 1) = n
          omega
      · rw [ih _ (i + 1)]
        · omega
        · show s.input.length - (i + 1) = n
          omega
    · rfl

/-- Every position that is a valid index of both buffers and at or above the
loop counter receives the product of the input sample and the multiplier. -/
theorem processLoop_written (m : F32) (s : ProcState) (i j : Nat)
    (hij : i ≤ j) (hin : j < s.input.length) (hout : j < s.output.length) :
    (processLoop m s i).output[j]? = some (F32.mul (s.input.get ⟨j, hin⟩) m) := by
  generalize hn : s.input.length - i = n
  induction n generalizing s i with
  | zero =>
    omega
  | succ n ih =>
    rw [processLoop, dif_pos (by omega)]
    rcases Nat.eq_or_lt_of_le hij with hji | hji
    · subst hji
      rw [if_pos hout, processLoop_untouched]
      · exact List.getElem?_set_self hout
      · left
        omega
    · split
      · next houtj =>
        rw [ih _ (i + 1) hji]
        · show j < (s.output.set i (F32.mul (s.input.get ⟨i, by omega⟩) m)).length
          rw [List.length_set]
          omega
        · show s.input.length - (i + 1) = n
          omega
      · rw [ih _ (i + 1) hji hin hout]
        omega

/-! ## Arithmetic facts about the sample model -/

/-- Multiplying any sample by `1.0` returns it unchanged (exact in IEEE
binary32, since `1.0 * x` rounds to `x` itself). -/
theorem F32.mul_one (x : F32) : F32.mul x F32.one = x := by
  cases x with
  | nan => rfl
  | inf s => simp [F32.mul, F32.one]
  | fin s m => simp [F32.mul, F32.one]

/-- Multiplying any sample by `-1.0` negates it (flips the sign bit; exact
in IEEE binary32). -/
theorem F32.mul_neg_one (x : F32) : F32.mul x (F32.neg F32.one) = F32.neg x := by
  cases x with
  | nan => rfl
  | inf s => simp [F32.mul, F32.neg, F32.one]
  | fin s m => simp [F32.mul, F32.neg, F32.one]

/-! ## Characterization of `process` -/

/-- `process` preserves the output buffer's length. -/
theorem process_output_length (p : GainProcessor) (input output : List F32) :
    (p.process input output).output.length = output.length :=
  processLoop_length _ ⟨p, input, output⟩ 0

/-- Complete element-wise description of `process`: positions valid in both
buffers receive `input[i] * multiplier`; every other output position keeps
its previous contents. -/
theorem process_output_getElem (p : GainProcessor) (input output : List F32) (j : Nat) :
    (p.process input output).output[j]? =
      if h : j < input.length ∧ j < output.length then
        some (F32.mul (input.get ⟨j, h.1⟩) (if p.invert then F32.neg p.gain else p.gain))
      else output[j]? := by
  by_cases h : j < input.length ∧ j < output.length
  · rw [dif_pos h]
    exact processLoop_written _ ⟨p, input, output⟩ 0 j (Nat.zero_le j) h.1 h.2
  · rw [dif_neg h]
    refine processLoop_untouched _ ⟨p, input, output⟩ 0 j ?_
    show j < 0 ∨ input.length ≤ j ∨ output.length ≤ j
    omega

/-- `process` leaves the processor fields and the input buffer unchanged. -/
theorem process_frame (p : GainProcessor) (input output : List F32) :
    (p.process input output).proc = p ∧ (p.process input output).input = input :=
  ⟨processLoop_proc _ ⟨p, input, output⟩ 0, processLoop_input _ ⟨p, input, output⟩ 0⟩

/-! ## Claims -/

/-- C1: with invert = false and arbitrary gain `g`, every index valid in
both buffers satisfies `output[i] = input[i] * g`. -/
theorem claim_scaling (g : F32) (input output : List F32) (i : Nat)
    (hin : i < input.length) (hout : i < output.length) :
    (GainProcessor.process ⟨g, false⟩ input output).output[i]? =
      some (F32.mul (input.get ⟨i, hin⟩) g) :=
  processLoop_written g ⟨⟨g, false⟩, input, output⟩ 0 i (Nat.zero_le i) hin hout

/-- Witness for C1 at gain `2.0`, input `[1.0, 0.0]`, output `[0.0, 0.0]`. -/
theorem claim_scaling_witness :
    (GainProcessor.process ⟨F32.fin false 2, false⟩ [F32.one, F32.zero]
      [F32.zero, F32.zero]).output[0]? = some (F32.fin false 2) :=
  (claim_scaling (F32.fin false 2) [F32.one, F32.zero] [F32.zero, F32.zero] 0
    (by decide) (by decide)).trans (by norm_num [F32.mul, F32.one])

/-- C2: with invert = true and gain `g`, the multiplier is `-g` (read from
the processor's fields at the start of the call), and every index valid in
both buffers satisfies `output[i] = input[i] * -g`. -/
theorem claim_combined_sign (g : F32) (input output : List F32) (i : Nat)
    (hin : i < input.length) (hout : i < output.length) :
    (GainProcessor.process ⟨g, true⟩ input output).output[i]? =
      some (F32.mul (input.get ⟨i, hin⟩) (F32.neg g)) :=
  processLoop_written (F32.neg g) ⟨⟨g, true⟩, input, output⟩ 0 i (Nat.zero_le i) hin hout

/-- Witness for C2 at gain `2.0`, input `[1.0]`, output `[0.0]`. -/
theorem claim_combined_sign_witness :
    (GainProcessor.process ⟨F32.fin false 2, true⟩ [F32.one] [F32.zero]).output[0]? =
      some (F32.fin true 2) :=
  (claim_combined_sign (F32.fin false 2) [F32.one] [F32.zero] 0
    (by decide) (by decide)).trans (by norm_num [F32.mul, F32.neg, F32.one])

/-- C3: when the output buffer is shorter than the input, the output keeps
its length (no out-of-bounds growth) and exactly its `output.length`
positions are written, each with the corresponding product. -/
theorem claim_length_bounding (p : GainProcessor) (input output : List F32)
    (hlt : output.length < input.length) :
    (p.process input output).output.length = output.length ∧
    ∀ i : Nat, ∀ hi : i < output.length,
      (p.process input output).output[i]? =
        some (F32.mul (input.get ⟨i, by omega⟩)
          (if p.invert then F32.neg p.gain else p.gain)) := by
  refine ⟨process_output_length p input output, fun i hi => ?_⟩
  rw [process_output_getElem, dif_pos ⟨by omega, hi⟩]

/-- Witness for C3: input of length 3, output of length 2, gain `2.0`. -/
theorem claim_length_bounding_witness :
    (GainProcessor.process ⟨F32.fin false 2, false⟩ [F32.one, F32.zero, F32.one]
        [F32.zero, F32.zero]).output.length = 2 ∧
    (GainProcessor.process ⟨F32.fin false 2, false⟩ [F32.one, F32.zero, F32.one]
        [F32.zero, F32.zero]).output[1]? = some F32.zero := by
  have h := claim_length_bounding ⟨F32.fin false 2, false⟩
    [F32.one, F32.zero, F32.one] [F32.zero, F32.zero] (by decide)
  exact ⟨h.1, (h.2 1 (by decide)).trans (by norm_num [F32.mul, F32.zero, F32.one])⟩

/-- C4: `process` is total, with no error path: for every processor state
and every pair of buffers the result is defined, the output keeps its
length, and any length mismatch is resolved by truncating the written range
to the shorter buffer. -/
theorem claim_total (p : GainProcessor) (input output : List F32) :
    (p.process input output).output.length = output.length ∧
    ∀ i : Nat,
      (p.process input output).output[i]? =
        if h : i < input.length ∧ i < output.length then
          some (F32.mul (input.get ⟨i, h.1⟩)
            (if p.invert then F32.neg p.gain else p.gain))
        else output[i]? :=
  ⟨process_output_length p input output, fun i => process_output_getElem p input output i⟩

/-- Witness for C4 at an empty output buffer. -/
theorem claim_total_witness :
    (GainProcessor.process ⟨F32.one, false⟩ [F32.one] []).output.length = 0 :=
  (claim_total ⟨F32.one, false⟩ [F32.one] []).1

/-- C5: when the output buffer is longer than the input, every output
position at index at least `input.length` keeps its previous value
bit-for-bit. -/
theorem claim_tail_untouched (p : GainProcessor) (input output : List F32)
    (_hgt : input.length < output.length) (i : Nat) (hi : input.length ≤ i) :
    (p.process input output).output[i]? = output[i]? := by
  rw [process_output_getElem, dif_neg (by omega)]

/-- Witness for C5: input of length 1, output of length 2 with a nonzero
tail value, which survives the call. -/
theorem claim_tail_untouched_witness :
    (GainProcessor.process ⟨F32.one, false⟩ [F32.one]
      [F32.zero, F32.fin true 3]).output[1]? = some (F32.fin true 3) :=
  (claim_tail_untouched ⟨F32.one, false⟩ [F32.one] [F32.zero, F32.fin true 3]
    (by decide) 1 (by decide)).trans (by decide)

/-- C6: `process` mutates only the output buffer: the input buffer and the
processor's `gain` and `invert` fields are unchanged by the call. -/
theorem claim_frame (p : GainProcessor) (input output : List F32) :
    (p.process input output).proc.gain = p.gain ∧
    (p.process input output).proc.invert = p.invert ∧
    (p.process input output).input = input := by
  obtain ⟨h1, h2⟩ := process_frame p input output
  exact ⟨by rw [h1], by rw [h1], h2⟩

/-- C7: passthrough identity: with gain = `1.0` and invert = false, every
index valid in both buffers satisfies `output[i] = input[i]`. -/
theorem claim_passthrough (input output : List F32) (i : Nat)
    (hin : i < input.length) (hout : i < output.length) :
    (GainProcessor.process ⟨F32.one, false⟩ input output).output[i]? = input[i]? := by
  rw [process_output_getElem, dif_pos ⟨hin, hout⟩]
  show some (F32.mul (input.get ⟨i, hin⟩) F32.one) = input[i]?
  rw [F32.mul_one]
  exact (List.getElem?_eq_getElem hin).symm

/-- Witness for C7 at input `[0.5, -0.2, 0.0, 1.0]` (spec scenario 1),
index 1. -/
theorem claim_passthrough_witness :
    (GainProcessor.process ⟨F32.one, false⟩
      [F32.fin false (1 / 2), F32.fin true (1 / 5), F32.zero, F32.one]
      [F32.zero, F32.zero, F32.zero, F32.zero]).output[1]? =
      some (F32.fin true (1 / 5)) :=
  (claim_passthrough
    [F32.fin false (1 / 2), F32.fin true (1 / 5), F32.zero, F32.one]
    [F32.zero, F32.zero, F32.zero, F32.zero] 1 (by decide) (by decide)).trans
    rfl

/-- C8: inversion: with gain = `1.0` and invert = true, every index valid in
both buffers satisfies `output[i] = -input[i]`; moreover `0.0 * -1.0` is
`-0.0`, which is numerically equal to `0.0` but bit-distinguishable. -/
theorem claim_inversion (input output : List F32) (i : Nat)
    (hin : i < input.length) (hout : i < output.length) :
    ((GainProcessor.process ⟨F32.one, true⟩ input output).output[i]? =
      some (F32.neg (input.get ⟨i, hin⟩))) ∧
    F32.mul F32.zero (F32.neg F32.one) = F32.negZero ∧
    F32.beq F32.negZero F32.zero = true ∧
    F32.negZero ≠ F32.zero := by
  refine ⟨?_, by norm_num [F32.mul, F32.neg, F32.one, F32.zero, F32.negZero],
    by decide, by decide⟩
  rw [process_output_getElem, dif_pos ⟨hin, hout⟩]
  show some (F32.mul (input.get ⟨i, hin⟩) (F32.neg F32.one)) = _
  rw [F32.mul_neg_one]

/-- Witness for C8 at input `[0.0]`: the output sample is `-0.0`. -/
theorem claim_inversion_witness :
    (GainProcessor.process ⟨F32.one, true⟩ [F32.zero] [F32.one]).output[0]? =
      some F32.negZero :=
  ((claim_inversion [F32.zero] [F32.one] 0 (by decide) (by decide)).1).trans
    (by decide)

/-- C9: two processors built by `new` from identical `(gain, invert)`
arguments produce identical output buffers on identical inputs. -/
theorem claim_idempotent_construction (g1 g2 : F32) (b1 b2 : Bool)
    (input output : List F32) (hg : g1 = g2) (hb : b1 = b2) :
    (GainProcessor.process (GainProcessor.new g1 b1) input output).output =
      (GainProcessor.process (GainProcessor.new g2 b2) input output).output := by
  subst hg
  subst hb
  rfl

/-- Witness for C9 at `(1.0, true)` on input `[1.0]`. -/
theorem claim_idempotent_construction_witness :
    (GainProcessor.process (GainProcessor.new F32.one true) [F32.one] [F32.zero]).output =
      (GainProcessor.process (GainProcessor.new F32.one true) [F32.one] [F32.zero]).output :=
  claim_idempotent_construction F32.one F32.one true true [F32.one] [F32.zero] rfl rfl

/-- C10: running `process` with fields `(g, invert = true)` produces the same
output buffer as running it with fields `(-g, invert = false)`: both calls
use the effective multiplier `-g`. -/
theorem claim_invert_negate (g : F32) (input output : List F32) :
    (GainProcessor.process ⟨g, true⟩ input output).output =
      (GainProcessor.process ⟨F32.neg g, false⟩ input output).output := by
  apply List.ext_getElem?
  intro j
  rw [process_output_getElem, process_output_getElem]
  simp
